import Mathlib

/-!
# Verification of the stock-checker report pipeline

Shallow embedding of `src/main.rs` (societymartingale/stock-checker).

Modelling conventions:
* Rust `f64` is embedded as the type `StockChecker.F`: an exact rational
  together with the three IEEE special values `inf`, `neginf` and `nan`.
  Finite arithmetic is idealized to exact rational arithmetic; the special
  values follow IEEE-754 semantics (division of a non-zero finite value by
  zero gives a signed infinity, `0/0` gives `nan`, comparisons with `nan`
  are false, `f64::min`/`f64::max` ignore a `nan` argument).
* `rust_decimal::Decimal` (exact decimal monetary amounts) is embedded as `ℚ`;
  `Decimal` division panics on a zero divisor, which is embedded as an
  `Except` error (`decimal_div`).
* A Rust function that can panic is embedded with an `Option` result,
  `none` standing for the panic (`Vec` indexing out of bounds,
  `Option::unwrap` on `None`).
* Printing is embedded by returning the data that would be printed
  (`Option`-valued summary lines: `none` means the line is omitted).
* Statistics (`statrs`): sample standard deviation over `ℝ`, with the
  `n-1` denominator and `Real.sqrt`.
-/

namespace StockChecker

/-- Embedding of `f64`: exact rationals plus the IEEE special values. -/
inductive F where
  | nan : F
  | inf : F
  | neginf : F
  | fin : ℚ → F
deriving DecidableEq

namespace F

/-- `f64` subtraction (used only on finite operands by the program). -/
def sub : F → F → F
  | fin a, fin b => fin (a - b)
  | nan, _ => nan
  | _, nan => nan
  | inf, inf => nan
  | inf, _ => inf
  | neginf, neginf => nan
  | neginf, _ => neginf
  | fin _, inf => neginf
  | fin _, neginf => inf

/-- `f64` multiplication (used only on finite operands by the program). -/
def mul : F → F → F
  | fin a, fin b => fin (a * b)
  | nan, _ => nan
  | _, nan => nan
  | inf, inf => inf
  | inf, neginf => neginf
  | neginf, inf => neginf
  | neginf, neginf => inf
  | inf, fin b => if b = 0 then nan else if 0 < b then inf else neginf
  | fin a, inf => if a = 0 then nan else if 0 < a then inf else neginf
  | neginf, fin b => if b = 0 then nan else if 0 < b then neginf else inf
  | fin a, neginf => if a = 0 then nan else if 0 < a then neginf else inf

/-- `f64` division: a non-zero finite value divided by zero is a signed
infinity, `0/0` is `nan` (IEEE-754; floating-point division never fails). -/
def div : F → F → F
  | fin a, fin b =>
      if b = 0 then (if a = 0 then nan else if 0 < a then inf else neginf)
      else fin (a / b)
  | nan, _ => nan
  | _, nan => nan
  | inf, inf => nan
  | inf, neginf => nan
  | neginf, inf => nan
  | neginf, neginf => nan
  | inf, fin b => if 0 ≤ b then inf else neginf
  | neginf, fin b => if 0 ≤ b then neginf else inf
  | fin _, inf => fin 0
  | fin _, neginf => fin 0

/-- `f64` `<` as the Rust comparison: any comparison with `nan` is false. -/
def ltb : F → F → Bool
  | nan, _ => false
  | _, nan => false
  | neginf, neginf => false
  | neginf, _ => true
  | _, neginf => false
  | inf, _ => false
  | fin _, inf => true
  | fin a, fin b => decide (a < b)

/-- `f64` `<=` as the Rust comparison: any comparison with `nan` is false. -/
def leb : F → F → Bool
  | nan, _ => false
  | _, nan => false
  | neginf, _ => true
  | _, neginf => false
  | _, inf => true
  | inf, _ => false
  | fin a, fin b => decide (a ≤ b)

/-- `f64::min`: returns the other argument when one is `nan`. -/
def fmin : F → F → F
  | nan, y => y
  | x, nan => x
  | x, y => if ltb x y then x else y

/-- `f64::max`: returns the other argument when one is `nan`. -/
def fmax : F → F → F
  | nan, y => y
  | x, nan => x
  | x, y => if ltb x y then y else x

/-- A float is finite when it is neither `nan` nor an infinity. -/
def isFinite : F → Bool
  | fin _ => true
  | _ => false

end F

/-- `yfinance_rs` `Money`: an exact-decimal amount (`rust_decimal::Decimal`
embedded as `ℚ`). -/
structure Money where
  amount : ℚ
deriving DecidableEq

/-- `yfinance_rs::core::conversions::money_to_f64`: conversion of the exact
monetary amount to `f64` (idealized as exact). -/
def money_to_f64 (m : Money) : F := F.fin m.amount

/-- `yfinance_rs::Candle`: one daily price bar. `ts` is the timestamp
(epoch), `volume` may be absent. -/
structure Candle where
  ts : ℤ
  open_ : Money
  high : Money
  low : Money
  close : Money
  volume : Option ℕ
deriving DecidableEq

instance : Inhabited Candle := ⟨⟨0, ⟨0⟩, ⟨0⟩, ⟨0⟩, ⟨0⟩, none⟩⟩

/-- Helper to build a test bar from low, high, close and volume
(timestamp 0, open equal to close). -/
def mkBar (l h c : ℚ) (v : Option ℕ) : Candle := ⟨0, ⟨c⟩, ⟨h⟩, ⟨l⟩, ⟨c⟩, v⟩

/-- `calc_returns` (main.rs 194-202): for `i` in `1..len`, pushes
`(close[i] - close[i-1]) / close[i-1]` computed in `f64` after
`money_to_f64` conversion. -/
def calc_returns : List Candle → List F
  | [] => []
  | [_] => []
  | prev :: cur :: rest =>
      F.div (F.sub (money_to_f64 cur.close) (money_to_f64 prev.close))
          (money_to_f64 prev.close)
        :: calc_returns (cur :: rest)

theorem calc_returns_length : ∀ qs : List Candle,
    (calc_returns qs).length = qs.length - 1
  | [] => rfl
  | [_] => rfl
  | _ :: b :: r => by
      have ih := calc_returns_length (b :: r)
      simp [calc_returns] at ih ⊢
      omega

theorem calc_returns_getD : ∀ (qs : List Candle) (i : ℕ), i + 1 < qs.length →
    (calc_returns qs).getD i (F.fin 0) =
      F.div (F.sub (money_to_f64 (qs.getD (i+1) default).close)
              (money_to_f64 (qs.getD i default).close))
        (money_to_f64 (qs.getD i default).close)
  | [], i, h => by simp at h
  | [_], i, h => by simp at h
  | _ :: _ :: _, 0, _ => rfl
  | a :: b :: r, (i+1), h => by
      have ih := calc_returns_getD (b :: r) i (by simpa using h)
      simpa [calc_returns] using ih

/-- `rust_decimal` division: panics (embedded as an error) on a zero
divisor, unlike floating point. -/
def decimal_div (a b : ℚ) : Except String ℚ :=
  if b = 0 then Except.error "Division by zero" else Except.ok (a / b)

/-- The percent-change block of `main` (main.rs 60-68): when there are at
least 2 bars and the first close is non-zero, prints
`100 * (last_close - first_close) / first_close` computed in exact decimal
arithmetic; otherwise the line is omitted (`ok none`). The zero first close
is explicitly guarded, so the `Decimal` division-by-zero panic is
unreachable. -/
def pct_change_line (qs : List Candle) : Except String (Option ℚ) :=
  if 2 ≤ qs.length then
    let initial := (qs.getD 0 default).close.amount
    if initial = 0 then Except.ok none
    else
      match decimal_div
          (100 * ((qs.getD (qs.length - 1) default).close.amount - initial))
          initial with
      | Except.error e => Except.error e
      | Except.ok v => Except.ok (some v)
  else Except.ok none

/-- `TRADING_DAYS_YEAR` (main.rs 17): fixed constant, 252 trading days
per year. -/
def TRADING_DAYS_YEAR : ℝ := 252

/-- Image of a float in `ℝ` for the statistics step; the non-finite values
are mapped to 0 (no claim depends on the statistics of non-finite data). -/
noncomputable def F.toReal : F → ℝ
  | F.fin q => (q : ℝ)
  | _ => 0

/-- `statrs` `Statistics::std_dev`: sample standard deviation, square root
of the sum of squared deviations from the mean divided by `n - 1`. -/
noncomputable def sample_std_dev (xs : List ℝ) : ℝ :=
  Real.sqrt ((xs.map (fun x => (x - xs.sum / xs.length) ^ 2)).sum /
    (xs.length - 1))

/-- The volatility block of `main` (main.rs 70-76): when there are at least
3 bars, prints the sample standard deviation of the return series and the
annualized volatility `std_dev * sqrt(TRADING_DAYS_YEAR) * 100.0`;
otherwise both lines are omitted. -/
noncomputable def volatility_summary (qs : List Candle) : Option (ℝ × ℝ) :=
  if 3 ≤ qs.length then
    let sd := sample_std_dev ((calc_returns qs).map F.toReal)
    some (sd, sd * Real.sqrt TRADING_DAYS_YEAR * 100)
  else none

/-- `PriceRange` (main.rs 26-30). -/
structure PriceRange where
  low : F
  high : F
deriving DecidableEq

/-- Loop body of `get_price_range` (main.rs 218-226): updates the running
intraday and closing ranges with one bar via `f64::min` / `f64::max`. -/
def price_range_step (acc : PriceRange × PriceRange) (q : Candle) :
    PriceRange × PriceRange :=
  let low := money_to_f64 q.low
  let high := money_to_f64 q.high
  let close := money_to_f64 q.close
  (⟨F.fmin acc.1.low low, F.fmax acc.1.high high⟩,
   ⟨F.fmin acc.2.low close, F.fmax acc.2.high close⟩)

/-- `get_price_range` (main.rs 204-229): `None` on empty input, otherwise
a single pass folding `f64::min`/`f64::max` over lows, highs and closes,
starting from `f64::INFINITY` / `f64::NEG_INFINITY`. -/
def get_price_range (qs : List Candle) : Option (PriceRange × PriceRange) :=
  if qs.isEmpty then none
  else
    some (qs.foldl price_range_step
      (⟨F.inf, F.neginf⟩, ⟨F.inf, F.neginf⟩))

/-- Minimum of a list of rationals, head-seeded (0 on the empty list,
which no claim uses). -/
def qListMin : List ℚ → ℚ
  | [] => 0
  | x :: xs => xs.foldl min x

/-- Maximum of a list of rationals, head-seeded (0 on the empty list,
which no claim uses). -/
def qListMax : List ℚ → ℚ
  | [] => 0
  | x :: xs => xs.foldl max x

/-- Round a rational to the nearest integer, ties to even (the rounding of
Rust's `{:.2}` formatting, idealized on exact values). -/
def round_half_even (q : ℚ) : ℤ :=
  let f := Int.floor q
  let frac := q - f
  if frac < 1/2 then f
  else if 1/2 < frac then f + 1
  else if f % 2 = 0 then f else f + 1

/-- Two-digit zero-padded rendering of a natural number below 100. -/
def nat2d (n : ℕ) : String := (if n < 10 then "0" else "") ++ toString n

/-- Rust `format!("\x7b:.2\x7d", x)` on an `f64`: two decimal places.
A negative value is rendered as a minus sign followed by the rendering of
its absolute value. -/
def fmt2 : F → String
  | F.nan => "NaN"
  | F.inf => "inf"
  | F.neginf => "-inf"
  | F.fin q =>
      let sign := if q < 0 then "-" else ""
      let n := (round_half_even (|q| * 100)).toNat
      sign ++ toString (n / 100) ++ "." ++ nat2d (n % 100)

/-- Split a reversed digit list into groups of three (for thousands
separators). -/
def group3 : List Char → List (List Char)
  | [] => []
  | a :: b :: c :: rest => [a, b, c] :: group3 rest
  | xs => [xs]

/-- `num_format` `to_formatted_string(&Locale::en)`: decimal digits grouped
by commas every three digits from the right. -/
def to_formatted_string (n : ℕ) : String :=
  String.mk ((((group3 (toString n).data.reverse).intersperse [',']).flatten).reverse)

/-- `chrono` `ts.date_naive().to_string()`: the calendar-date rendering of
the timestamp, modelled abstractly as the decimal rendering of the epoch
value (no claim inspects the date cell's contents). -/
def date_naive_string (ts : ℤ) : String := toString ts

/-- Rust `format!("\x7b:.2\x7d", d)` on a `Decimal` price, modelled with the
same two-decimal rounding as the float rendering. -/
def dec2 (q : ℚ) : String := fmt2 (F.fin q)

/-- The `Return %` cell of row `idx` in `print_quotes` (main.rs 131-140):
blank for row 0; otherwise `returns[idx - 1] * 100.0` rendered to two
decimals, with a leading space in the non-negative branch
(`if ret < 0.0` takes the space-less branch). Indexing `returns[idx - 1]`
out of bounds is a panic (`none`). -/
def ret_cell (idx : ℕ) (returns : List F) : Option String :=
  if idx = 0 then some ""
  else
    match returns.get? (idx - 1) with
    | none => none
    | some r =>
        let ret := F.mul r (F.fin 100)
        some (if F.ltb ret (F.fin 0) then fmt2 ret else " " ++ fmt2 ret)

/-- One data row of the quote table (main.rs 142-150): date, unwrapped
volume (panic when absent), prices to two decimals, return cell. -/
def quote_row (idx : ℕ) (q : Candle) (returns : List F) :
    Option (List String) := do
  let rc ← ret_cell idx returns
  let vol ← q.volume
  pure [date_naive_string q.ts, to_formatted_string vol,
    dec2 q.open_.amount, dec2 q.high.amount, dec2 q.low.amount,
    dec2 q.close.amount, rc]

/-- The row-building loop of `print_quotes`, carrying the enumeration
index; `none` when any row panics. -/
def build_rows (idx : ℕ) : List Candle → List F → Option (List (List String))
  | [], _ => some []
  | q :: rest, returns => do
      let row ← quote_row idx q returns
      let rows ← build_rows (idx + 1) rest returns
      pure (row :: rows)

/-- Observable outcome of `print_quotes`. -/
inductive QuoteOutput where
  | noQuotes
  | table (rows : List (List String))
deriving DecidableEq

/-- `print_quotes` (main.rs 123-154): on an empty series prints
"No quotes to display" and returns; otherwise builds the table rows
(`none` embeds a panic: a missing volume or an out-of-range return
index). -/
def print_quotes (quotes : List Candle) (returns : List F) :
    Option QuoteOutput :=
  if quotes.isEmpty then some QuoteOutput.noQuotes
  else (build_rows 0 quotes returns).map QuoteOutput.table

/-- `yfinance_rs` fast-info metadata (only the field `main` reads). -/
structure FastInfo where
  name : Option String
deriving DecidableEq

/-- `yfinance_rs::fundamentals::CashflowRow` (the fields `main` reads). -/
structure CashflowRow where
  year_end : Option ℤ
  free_cash_flow : Option ℤ
deriving DecidableEq

/-- The join-and-unwrap step of `main` (main.rs 38-47): the four fetch
results are joined, then `fast_info` and the price history and the cash
flow are unwrapped with `?` (an error aborts the run) while the earnings
result is converted with `.ok()` (an error becomes `none` and the run
proceeds). -/
def join_fetches (quotes_res : Except String (List Candle))
    (earnings_res : Except String (List ℤ))
    (fi : Except String FastInfo)
    (cf : Except String (List CashflowRow)) :
    Except String (FastInfo × List Candle × Option (List ℤ) × List CashflowRow) :=
  match fi with
  | Except.error e => Except.error e
  | Except.ok fi =>
    match quotes_res with
    | Except.error e => Except.error e
    | Except.ok quotes =>
      let earnings : Option (List ℤ) :=
        match earnings_res with
        | Except.ok v => some v
        | Except.error _ => none
      match cf with
      | Except.error e => Except.error e
      | Except.ok cf => Except.ok (fi, quotes, earnings, cf)

/-- The earnings line of the report (main.rs 89-93): printed only when the
earnings data is present and non-empty; shows the first date. -/
def earnings_line (earnings : Option (List ℤ)) : Option ℤ :=
  match earnings with
  | some (d :: _) => some d
  | _ => none

/-- Scale a bar's close by a constant (for the scale-invariance claim). -/
def scale_close (c : ℚ) (q : Candle) : Candle :=
  { q with close := ⟨c * q.close.amount⟩ }

/-! ## Helper lemmas -/

theorem fmin_fin_fin (a b : ℚ) : F.fmin (F.fin a) (F.fin b) = F.fin (min a b) := by
  simp only [F.fmin, F.ltb, decide_eq_true_eq]
  split_ifs with h
  · exact congrArg F.fin (min_eq_left h.le).symm
  · exact congrArg F.fin (min_eq_right (le_of_not_lt h)).symm

theorem fmax_fin_fin (a b : ℚ) : F.fmax (F.fin a) (F.fin b) = F.fin (max a b) := by
  simp only [F.fmax, F.ltb, decide_eq_true_eq]
  split_ifs with h
  · exact congrArg F.fin (max_eq_right h.le).symm
  · exact congrArg F.fin (max_eq_left (le_of_not_lt h)).symm

theorem leb_fin_fin (a b : ℚ) : F.leb (F.fin a) (F.fin b) = decide (a ≤ b) := rfl

theorem price_fold_eq : ∀ (qs : List Candle) (a b c d : ℚ),
    qs.foldl price_range_step (⟨F.fin a, F.fin b⟩, ⟨F.fin c, F.fin d⟩) =
      (⟨F.fin ((qs.map fun q => q.low.amount).foldl min a),
        F.fin ((qs.map fun q => q.high.amount).foldl max b)⟩,
       ⟨F.fin ((qs.map fun q => q.close.amount).foldl min c),
        F.fin ((qs.map fun q => q.close.amount).foldl max d)⟩)
  | [], _, _, _, _ => rfl
  | q :: qs, a, b, c, d => by
      simp only [List.foldl_cons, List.map_cons, price_range_step, money_to_f64,
        fmin_fin_fin, fmax_fin_fin]
      exact price_fold_eq qs (min a q.low.amount) (max b q.high.amount)
        (min c q.close.amount) (max d q.close.amount)

theorem price_range_cons (q : Candle) (rest : List Candle) :
    get_price_range (q :: rest) = some
      (⟨F.fin ((rest.map fun r => r.low.amount).foldl min q.low.amount),
        F.fin ((rest.map fun r => r.high.amount).foldl max q.high.amount)⟩,
       ⟨F.fin ((rest.map fun r => r.close.amount).foldl min q.close.amount),
        F.fin ((rest.map fun r => r.close.amount).foldl max q.close.amount)⟩) := by
  have hstep : price_range_step (⟨F.inf, F.neginf⟩, ⟨F.inf, F.neginf⟩) q =
      (⟨F.fin q.low.amount, F.fin q.high.amount⟩,
       ⟨F.fin q.close.amount, F.fin q.close.amount⟩) := rfl
  simp only [get_price_range, List.isEmpty_cons, Bool.false_eq_true, if_false,
    List.foldl_cons, hstep, price_fold_eq]

theorem foldl_min_le_init (xs : List ℚ) : ∀ a : ℚ, xs.foldl min a ≤ a := by
  induction xs with
  | nil => exact fun a => le_refl a
  | cons x xs ih =>
      intro a
      exact le_trans (ih (min a x)) (min_le_left a x)

theorem init_le_foldl_max (xs : List ℚ) : ∀ a : ℚ, a ≤ xs.foldl max a := by
  induction xs with
  | nil => exact fun a => le_refl a
  | cons x xs ih =>
      intro a
      exact le_trans (le_max_left a x) (ih (max a x))

/-! ## Claims -/

/-- Claim C1: for every Price Bar sequence of length `n`, `calc_returns`
produces a return series of length `max(n-1, 0)`, whose `i`-th element
equals `(close[i+1] - close[i]) / close[i]` computed in floating point
after conversion from the exact decimal monetary representation; empty or
single-element input yields an empty series without error. -/
theorem claim_C1 (qs : List Candle) :
    (calc_returns qs).length = qs.length - 1 ∧
    (qs.length ≤ 1 → calc_returns qs = []) ∧
    ∀ i : ℕ, i + 1 < qs.length →
      (calc_returns qs).getD i (F.fin 0) =
        F.div (F.sub (money_to_f64 (qs.getD (i+1) default).close)
                (money_to_f64 (qs.getD i default).close))
          (money_to_f64 (qs.getD i default).close) := by
  refine ⟨calc_returns_length qs, ?_, fun i h => calc_returns_getD qs i h⟩
  intro h1
  have hlen := calc_returns_length qs
  have : (calc_returns qs).length = 0 := by omega
  exact List.eq_nil_of_length_eq_zero this

/-- Witness for C1 at a concrete two-bar input. -/
theorem claim_C1_witness :
    (0 : ℕ) + 1 < ([mkBar 1 2 2 none, mkBar 1 3 3 none] : List Candle).length ∧
    (calc_returns [mkBar 1 2 2 none, mkBar 1 3 3 none]).getD 0 (F.fin 0) =
      F.div (F.sub
          (money_to_f64 (([mkBar 1 2 2 none, mkBar 1 3 3 none] :
            List Candle).getD 1 default).close)
          (money_to_f64 (([mkBar 1 2 2 none, mkBar 1 3 3 none] :
            List Candle).getD 0 default).close))
        (money_to_f64 (([mkBar 1 2 2 none, mkBar 1 3 3 none] :
          List Candle).getD 0 default).close) :=
  ⟨by decide, (claim_C1 [mkBar 1 2 2 none, mkBar 1 3 3 none]).2.2 0 (by decide)⟩

/-- Counterexample to C2 as stated: with two bars whose first close is
exactly zero, the percent-change step does not fail; the zero divisor is
explicitly guarded and the line is silently omitted (`ok none`). -/
theorem claim_C2_counterexample :
    pct_change_line [mkBar 0 0 0 (some 1), mkBar 1 1 1 (some 1)] =
      Except.ok none := rfl

/-- Claim C2 (amended): if the input has at least 2 bars and the first
bar's close is exactly zero, the percent-change line is silently omitted
(the zero case is explicitly guarded before the exact-decimal division);
no division-by-zero error occurs and the run proceeds. -/
theorem claim_C2_amended (qs : List Candle) (h2 : 2 ≤ qs.length)
    (h0 : (qs.getD 0 default).close.amount = 0) :
    pct_change_line qs = Except.ok none := by
  unfold pct_change_line
  rw [if_pos h2, h0]
  simp

/-- Witness for the amended C2 at a concrete input. -/
theorem claim_C2_witness :
    pct_change_line [mkBar 1 2 0 (some 5), mkBar 1 2 7 (some 5)] =
      Except.ok none :=
  claim_C2_amended [mkBar 1 2 0 (some 5), mkBar 1 2 7 (some 5)]
    (by decide) (by decide)

/-- Counterexample to C3 as stated: a sequence whose first close is zero
does not make `calc_returns` fail; floating-point division by zero yields
`inf` at that position and the function returns normally. -/
theorem claim_C3_counterexample :
    calc_returns [mkBar 0 0 0 (some 1), mkBar 1 1 1 (some 1)] = [F.inf] := by
  simp [calc_returns, money_to_f64, mkBar, F.sub, F.div]

/-- Claim C3 (amended): `calc_returns` never fails; whenever some bar's
previous close `close[i-1]` is zero, the corresponding return is a
non-finite float (a signed infinity or `nan`), not an error. -/
theorem claim_C3_amended (qs : List Candle) (i : ℕ) (h : i + 1 < qs.length)
    (h0 : (qs.getD i default).close.amount = 0) :
    ((calc_returns qs).getD i (F.fin 0)).isFinite = false := by
  rw [calc_returns_getD qs i h]
  have hm : money_to_f64 (qs.getD i default).close = F.fin 0 := by
    simp only [money_to_f64, h0]
  rw [hm]
  simp only [money_to_f64, F.sub, F.div, sub_zero]
  split_ifs <;> rfl

/-- Witness for the amended C3 at a concrete input. -/
theorem claim_C3_witness :
    ((calc_returns [mkBar 2 2 0 (some 1), mkBar 3 3 5 (some 1)]).getD 0
      (F.fin 0)).isFinite = false :=
  claim_C3_amended [mkBar 2 2 0 (some 1), mkBar 3 3 5 (some 1)] 0
    (by decide) (by decide)

/-- Claim C4: the volatility summary (standard deviation of returns and
annualized volatility) is computed and printed if and only if the bar
count is at least 3, and the annualized volatility equals
`std_dev * sqrt(252) * 100` where 252 is the fixed constant
`TRADING_DAYS_YEAR`. -/
theorem claim_C4 (qs : List Candle) :
    ((volatility_summary qs).isSome = true ↔ 3 ≤ qs.length) ∧
    ∀ sd av : ℝ, volatility_summary qs = some (sd, av) →
      av = sd * Real.sqrt 252 * 100 := by
  unfold volatility_summary
  split_ifs with h
  · refine ⟨by simpa using h, ?_⟩
    intro sd av heq
    simp only [Option.some.injEq, Prod.mk.injEq] at heq
    obtain ⟨hsd, hav⟩ := heq
    rw [← hav, ← hsd]
    rfl
  · refine ⟨by simpa using h, ?_⟩
    intro sd av heq
    exact absurd heq (by simp)

/-- Witness for C4 at a concrete three-bar input. -/
theorem claim_C4_witness :
    (volatility_summary [mkBar 1 1 1 (some 1), mkBar 1 1 2 (some 1),
      mkBar 1 1 3 (some 1)]).isSome = true :=
  ((claim_C4 [mkBar 1 1 1 (some 1), mkBar 1 1 2 (some 1),
    mkBar 1 1 3 (some 1)]).1).mpr (by decide)

/-- Counterexample to C5 as stated: a single bar whose stored low exceeds
its stored high (nothing in the code enforces `low <= high` within a bar)
yields an intraday range with `low > high`. -/
theorem claim_C5_counterexample :
    get_price_range [mkBar 10 5 7 (some 1)] =
      some (⟨F.fin 10, F.fin 5⟩, ⟨F.fin 7, F.fin 7⟩) ∧
    F.leb (F.fin 10) (F.fin 5) = false := by
  refine ⟨rfl, ?_⟩
  rw [leb_fin_fin]
  simp only [decide_eq_false_iff_not]
  norm_num

/-- Claim C5 (amended): `get_price_range` returns `None` exactly on empty
input; on non-empty input it returns the intraday range (min of all bar
lows, max of all bar highs) and the closing range (min and max of all bar
closes); the closing range always satisfies `low <= high`, and the
intraday range satisfies `low <= high` provided every bar satisfies
`bar.low <= bar.high`. -/
theorem claim_C5_amended (qs : List Candle) :
    (get_price_range qs = none ↔ qs = []) ∧
    ∀ ir cr, get_price_range qs = some (ir, cr) →
      ir = ⟨F.fin (qListMin (qs.map fun q => q.low.amount)),
            F.fin (qListMax (qs.map fun q => q.high.amount))⟩ ∧
      cr = ⟨F.fin (qListMin (qs.map fun q => q.close.amount)),
            F.fin (qListMax (qs.map fun q => q.close.amount))⟩ ∧
      F.leb cr.low cr.high = true ∧
      ((∀ q ∈ qs, q.low.amount ≤ q.high.amount) →
        F.leb ir.low ir.high = true) := by
  cases qs with
  | nil =>
      refine ⟨by simp [get_price_range], ?_⟩
      intro ir cr h
      exact absurd h (by simp [get_price_range])
  | cons q rest =>
      have hc := price_range_cons q rest
      constructor
      · rw [hc]
        simp
      · intro ir cr h
        rw [hc] at h
        simp only [Option.some.injEq, Prod.mk.injEq] at h
        obtain ⟨hir, hcr⟩ := h
        refine ⟨?_, ?_, ?_, ?_⟩
        · rw [← hir]
          simp [qListMin, qListMax]
        · rw [← hcr]
          simp [qListMin, qListMax]
        · rw [← hcr]
          rw [leb_fin_fin]
          refine decide_eq_true ?_
          exact le_trans (foldl_min_le_init _ q.close.amount)
            (init_le_foldl_max _ q.close.amount)
        · intro hlh
          rw [← hir]
          rw [leb_fin_fin]
          refine decide_eq_true ?_
          have h1 : (rest.map fun r => r.low.amount).foldl min q.low.amount ≤
              q.low.amount := foldl_min_le_init _ _
          have h2 : q.high.amount ≤
              (rest.map fun r => r.high.amount).foldl max q.high.amount :=
            init_le_foldl_max _ _
          exact le_trans h1 (le_trans (hlh q (List.mem_cons_self q rest)) h2)

/-- Witness for the amended C5 at a concrete input. -/
theorem claim_C5_witness :
    F.leb (F.fin 3) (F.fin 3) = true ∧ F.leb (F.fin 1) (F.fin 2) = true := by
  have h := (claim_C5_amended [mkBar 1 2 3 (some 1)]).2
    ⟨F.fin 1, F.fin 2⟩ ⟨F.fin 3, F.fin 3⟩ rfl
  exact ⟨h.2.2.1, h.2.2.2 (by decide)⟩

theorem fmt2_neg_1235 : fmt2 (F.fin (-(247/200 : ℚ))) = "-1.24" := by
  have habs : |(247/200 : ℚ)| * 100 = 247/2 := by
    rw [abs_of_nonneg (by norm_num : (0:ℚ) ≤ 247/200)]
    norm_num
  have hr : round_half_even (247/2 : ℚ) = 124 := by
    unfold round_half_even
    norm_num
  norm_num [fmt2, habs, hr, Int.toNat_ofNat]
  decide

theorem fmt2_pos_1235 : fmt2 (F.fin ((247/200 : ℚ))) = "1.24" := by
  have habs : |(247/200 : ℚ)| * 100 = 247/2 := by
    rw [abs_of_nonneg (by norm_num : (0:ℚ) ≤ 247/200)]
    norm_num
  have hr : round_half_even (247/2 : ℚ) = 124 := by
    unfold round_half_even
    norm_num
  norm_num [fmt2, habs, hr, Int.toNat_ofNat]
  decide

theorem ret_cell_formula (idx : ℕ) (rets : List F) (r : F) (q : ℚ)
    (hidx : 0 < idx) (hget : rets.get? (idx - 1) = some r)
    (hmul : F.mul r (F.fin 100) = F.fin q) :
    ret_cell idx rets = some ((if 0 ≤ q then " " else "") ++ fmt2 (F.fin q)) := by
  unfold ret_cell
  rw [if_neg (Nat.pos_iff_ne_zero.mp hidx), hget]
  simp only [hmul, F.ltb, decide_eq_true_eq]
  split_ifs with h1 h2 h2
  · exact absurd h1 (not_lt.mpr h2)
  · simp
  · rfl
  · exact absurd (lt_of_not_le h2) h1

/-- Claim C6: in the quote table, the return column is blank for row 0 and
otherwise shows `returns[idx-1] * 100` rounded to 2 decimal places, with a
leading space prepended exactly when the value is non-negative; in
particular a return percentage of `-1.235` renders as `"-1.24"` and
`1.235` renders as `" 1.24"`. -/
theorem claim_C6 :
    (∀ rets : List F, ret_cell 0 rets = some "") ∧
    (∀ (idx : ℕ) (rets : List F) (r : F) (q : ℚ), 0 < idx →
      rets.get? (idx - 1) = some r → F.mul r (F.fin 100) = F.fin q →
      ret_cell idx rets =
        some ((if 0 ≤ q then " " else "") ++ fmt2 (F.fin q))) ∧
    ret_cell 1 [F.fin (-(247/20000 : ℚ))] = some "-1.24" ∧
    ret_cell 1 [F.fin ((247/20000 : ℚ))] = some " 1.24" := by
  refine ⟨fun rets => rfl,
    fun idx rets r q h1 h2 h3 => ret_cell_formula idx rets r q h1 h2 h3, ?_, ?_⟩
  · have hmul : F.mul (F.fin (-(247/20000 : ℚ))) (F.fin 100) =
        F.fin (-(247/200 : ℚ)) := by
      simp only [F.mul, F.fin.injEq]
      norm_num
    rw [ret_cell_formula 1 [F.fin (-(247/20000 : ℚ))] (F.fin (-(247/20000 : ℚ)))
        (-(247/200 : ℚ)) (by norm_num) rfl hmul,
      if_neg (by norm_num : ¬ (0:ℚ) ≤ -(247/200)), fmt2_neg_1235]
    rfl
  · have hmul : F.mul (F.fin ((247/20000 : ℚ))) (F.fin 100) =
        F.fin ((247/200 : ℚ)) := by
      simp only [F.mul, F.fin.injEq]
      norm_num
    rw [ret_cell_formula 1 [F.fin ((247/20000 : ℚ))] (F.fin ((247/20000 : ℚ)))
        ((247/200 : ℚ)) (by norm_num) rfl hmul,
      if_pos (by norm_num : (0:ℚ) ≤ 247/200), fmt2_pos_1235]
    rfl

/-- Witness for C6's general clause at a concrete input. -/
theorem claim_C6_witness :
    ret_cell 1 [F.fin 1] = some (" " ++ fmt2 (F.fin 100)) := by
  have h := claim_C6.2.1 1 [F.fin 1] (F.fin 1) 100 (by norm_num) rfl
    (by simp only [F.mul, F.fin.injEq]; norm_num)
  rw [h, if_pos (by norm_num : (0:ℚ) ≤ 100)]

/-- Claim C7: among the four concurrently issued fetches, a failure of the
earnings-calendar fetch is recovered to "no earnings data" (the join
succeeds with `none` for earnings, and the earnings line is omitted),
while a failure of the price-history, quick-metadata, or cash-flow fetch
makes the join fail (fatal, aborts the run). -/
theorem claim_C7 (e : String) (q : List Candle) (f : FastInfo)
    (c : List CashflowRow) (qr : Except String (List Candle))
    (er : Except String (List ℤ)) (fr : Except String FastInfo)
    (cr : Except String (List CashflowRow)) :
    (join_fetches (Except.ok q) (Except.error e) (Except.ok f)
        (Except.ok c) = Except.ok (f, q, none, c) ∧
      earnings_line none = none) ∧
    (join_fetches (Except.error e) er fr cr).isOk = false ∧
    (join_fetches qr er (Except.error e) cr).isOk = false ∧
    (join_fetches qr er fr (Except.error e)).isOk = false := by
  refine ⟨⟨rfl, rfl⟩, ?_, ?_, ?_⟩
  · cases fr <;> rfl
  · rfl
  · cases fr with
    | error _ => rfl
    | ok _ => cases qr <;> rfl

/-- Claim C10: for the empty bar sequence, `print_quotes` prints
"No quotes to display" and returns without building any table and without
panicking, regardless of the `returns` argument. -/
theorem claim_C10 (returns : List F) :
    print_quotes [] returns = some QuoteOutput.noQuotes := rfl

theorem build_rows_none_of_volume :
    ∀ (qs : List Candle) (idx : ℕ) (returns : List F),
      (∃ q ∈ qs, q.volume = none) → build_rows idx qs returns = none
  | [], _, _, h => absurd h (by simp)
  | q :: rest, idx, returns, h => by
      obtain ⟨p, hp, hv⟩ := h
      rcases List.mem_cons.mp hp with hpq | hprest
      · subst hpq
        have hrow : quote_row idx p returns = none := by
          unfold quote_row
          cases hrc : ret_cell idx returns with
          | none => rfl
          | some s => simp [hrc, hv]
        simp [build_rows, hrow]
      · have hrest := build_rows_none_of_volume rest (idx + 1) returns
          ⟨p, hprest, hv⟩
        unfold build_rows
        cases hrow : quote_row idx q returns with
        | none => rfl
        | some row => simp [hrow, hrest]

theorem build_rows_some_of_volume :
    ∀ (qs : List Candle) (idx : ℕ) (returns : List F),
      (∀ q ∈ qs, q.volume ≠ none) → idx + qs.length ≤ returns.length + 1 →
      ∃ rows, build_rows idx qs returns = some rows
  | [], _, _, _, _ => ⟨[], rfl⟩
  | q :: rest, idx, returns, hvol, hlen => by
      have hrc : ∃ s, ret_cell idx returns = some s := by
        unfold ret_cell
        by_cases hidx : idx = 0
        · exact ⟨"", by rw [if_pos hidx]⟩
        · have hlt : idx - 1 < returns.length := by
            simp only [List.length_cons] at hlen
            omega
          have hget := List.get?_eq_get hlt
          rw [if_neg hidx, hget]
          exact ⟨_, rfl⟩
      obtain ⟨s, hs⟩ := hrc
      have hv : ∃ v, q.volume = some v := by
        cases hq : q.volume with
        | none => exact absurd hq (hvol q (List.mem_cons_self q rest))
        | some v => exact ⟨v, rfl⟩
      obtain ⟨v, hvq⟩ := hv
      obtain ⟨rows, hrows⟩ := build_rows_some_of_volume rest (idx + 1) returns
        (fun p hp => hvol p (List.mem_cons_of_mem q hp))
        (by simp only [List.length_cons] at hlen; omega)
      refine ⟨[date_naive_string q.ts, to_formatted_string v,
        dec2 q.open_.amount, dec2 q.high.amount, dec2 q.low.amount,
        dec2 q.close.amount, s] :: rows, ?_⟩
      simp [build_rows, quote_row, hs, hvq, hrows]

/-- Claim C8: for a non-empty series rendered with its own return series
(as `main` does), a missing (`None`) volume on any bar makes the quote
table panic, while the table renders without panic when every bar has a
volume. -/
theorem claim_C8 (quotes : List Candle) (h : quotes ≠ []) :
    ((∃ q ∈ quotes, q.volume = none) →
      print_quotes quotes (calc_returns quotes) = none) ∧
    ((∀ q ∈ quotes, q.volume ≠ none) →
      ∃ rows, print_quotes quotes (calc_returns quotes) =
        some (QuoteOutput.table rows)) := by
  have hne : quotes.isEmpty = false := by
    cases quotes with
    | nil => exact absurd rfl h
    | cons _ _ => rfl
  constructor
  · intro hex
    unfold print_quotes
    rw [hne, build_rows_none_of_volume quotes 0 (calc_returns quotes) hex]
    rfl
  · intro hall
    have hlen : 0 + quotes.length ≤ (calc_returns quotes).length + 1 := by
      rw [calc_returns_length]
      cases quotes with
      | nil => exact absurd rfl h
      | cons _ _ => simp
    obtain ⟨rows, hrows⟩ :=
      build_rows_some_of_volume quotes 0 (calc_returns quotes) hall hlen
    refine ⟨rows, ?_⟩
    unfold print_quotes
    rw [hne, hrows]
    rfl

/-- Witness for C8 at a concrete one-bar input with missing volume. -/
theorem claim_C8_witness :
    print_quotes [mkBar 1 2 3 none] (calc_returns [mkBar 1 2 3 none]) =
      none :=
  (claim_C8 [mkBar 1 2 3 none] (by simp)).1
    ⟨mkBar 1 2 3 none, List.mem_cons_self _ _, rfl⟩

theorem pct_change_line_eq (qs : List Candle) (h2 : 2 ≤ qs.length)
    (h0 : (qs.getD 0 default).close.amount ≠ 0) :
    pct_change_line qs = Except.ok (some
      (100 * ((qs.getD (qs.length - 1) default).close.amount -
        (qs.getD 0 default).close.amount) /
        (qs.getD 0 default).close.amount)) := by
  unfold pct_change_line decimal_div
  rw [if_pos h2, if_neg h0, if_neg h0]

theorem close_amount_map_scale (c : ℚ) (qs : List Candle) (n : ℕ)
    (h : n < qs.length) :
    ((qs.map (scale_close c)).getD n default).close.amount =
      c * (qs.getD n default).close.amount := by
  have h2 : n < (qs.map (scale_close c)).length := by simpa using h
  rw [List.getD_eq_getElem _ _ h2, List.getD_eq_getElem _ _ h,
    List.getElem_map]
  rfl

/-- Claim C9: the percent-change over the period is scale-invariant: for
every bar sequence of length at least 2 with non-zero first close,
multiplying every close by the same positive constant leaves the computed
exact-decimal percent change unchanged. -/
theorem claim_C9 (qs : List Candle) (c : ℚ) (hc : 0 < c)
    (h2 : 2 ≤ qs.length) (h0 : (qs.getD 0 default).close.amount ≠ 0) :
    pct_change_line (qs.map (scale_close c)) = pct_change_line qs := by
  have hlen : (qs.map (scale_close c)).length = qs.length :=
    List.length_map _ _
  have h0lt : 0 < qs.length := by omega
  have hlast : qs.length - 1 < qs.length := by omega
  have hm0 := close_amount_map_scale c qs 0 h0lt
  have hmlast := close_amount_map_scale c qs (qs.length - 1) hlast
  have hcne : c ≠ 0 := ne_of_gt hc
  have hinit : ((qs.map (scale_close c)).getD 0 default).close.amount ≠ 0 := by
    rw [hm0]
    exact mul_ne_zero hcne h0
  rw [pct_change_line_eq qs h2 h0,
    pct_change_line_eq (qs.map (scale_close c)) (by rw [hlen]; exact h2) hinit,
    hlen, hm0, hmlast]
  have key : (100 : ℚ) *
      (c * (qs.getD (qs.length - 1) default).close.amount -
        c * (qs.getD 0 default).close.amount) /
      (c * (qs.getD 0 default).close.amount) =
      100 * ((qs.getD (qs.length - 1) default).close.amount -
        (qs.getD 0 default).close.amount) /
      (qs.getD 0 default).close.amount := by
    rw [show (100 : ℚ) *
        (c * (qs.getD (qs.length - 1) default).close.amount -
          c * (qs.getD 0 default).close.amount) =
        c * (100 * ((qs.getD (qs.length - 1) default).close.amount -
          (qs.getD 0 default).close.amount)) by ring,
      mul_div_mul_left _ _ hcne]
  rw [key]

/-- Witness for C9 at a concrete input, scaling factor 3. -/
theorem claim_C9_witness :
    pct_change_line ([mkBar 1 1 1 (some 1), mkBar 2 2 2 (some 1)].map
      (scale_close 3)) =
    pct_change_line [mkBar 1 1 1 (some 1), mkBar 2 2 2 (some 1)] :=
  claim_C9 [mkBar 1 1 1 (some 1), mkBar 2 2 2 (some 1)] 3 (by norm_num)
    (by decide) (by decide)

end StockChecker
